import Mathlib

/-!
A shallow embedding of the parking-lot engine of `src/LLD.cpp`.

The C++ classes `ParkingSpot`, `Floor` and `ParkingLot` are translated into
Lean structures; the mutating member functions become state-passing functions
returning `(result, new state)`.  A C++ `std::vector<T*>` of owned objects is a
`List` of values, and the two `std::unordered_map`s are association lists with
`lookupPlate` playing the role of `find` (keys are inserted only when absent
and erased wholesale, so association-list insertion by `cons` and erasure by
`filter` coincide with the map semantics).  Machine-integer behaviour is kept
where it matters: the `size_t` arithmetic of `Floor::findAvailableSpots` is
modelled with an explicit `% 2 ^ 64`, and an out-of-range `std::vector`
access (undefined behaviour) is modelled by an `Option` result of `none`.
-/

namespace LLD

/-- `enum class VehicleType`. -/
inductive VehicleType
  | Bike
  | Car
  | Truck
deriving DecidableEq, Repr

/-- `class Vehicle`: a license plate and a vehicle type. -/
structure Vehicle where
  licensePlate : String
  type : VehicleType
deriving DecidableEq, Repr

/-- `Vehicle::getRequiredSpots`: a Truck needs 2 spots, everything else 1. -/
def Vehicle.getRequiredSpots (v : Vehicle) : Nat :=
  if v.type = VehicleType.Truck then 2 else 1

/-- `class ParkingSpot`: identity `(floorNumber, spotNumber)`, an occupancy
flag, and the plate of the parked vehicle (empty string if none). -/
structure ParkingSpot where
  floorNumber : Nat
  spotNumber : Nat
  isOccupied : Bool
  parkedVehicle : String
deriving DecidableEq, Repr

/-- The `ParkingSpot` constructor: born free, with an empty plate string. -/
def ParkingSpot.mkNew (floorNumber spotNumber : Nat) : ParkingSpot :=
  ⟨floorNumber, spotNumber, false, ""⟩

/-- `ParkingSpot::assignVehicle`: fails (returning `false`) on an occupied
spot, otherwise records the plate and sets the occupancy flag. -/
def ParkingSpot.assignVehicle (s : ParkingSpot) (licensePlate : String) :
    Bool × ParkingSpot :=
  if s.isOccupied then (false, s)
  else (true, { s with parkedVehicle := licensePlate, isOccupied := true })

/-- `ParkingSpot::removeVehicle`: fails (returning `false`) on a free spot,
otherwise clears the plate string and the occupancy flag. -/
def ParkingSpot.removeVehicle (s : ParkingSpot) : Bool × ParkingSpot :=
  if !s.isOccupied then (false, s)
  else (true, { s with parkedVehicle := "", isOccupied := false })

/-- `class Floor`: a floor number and its ordered vector of spots. -/
structure Floor where
  floorNumber : Nat
  spots : List ParkingSpot
deriving DecidableEq, Repr

/-- The `Floor` constructor: `numSpots` fresh free spots with dense indices. -/
def Floor.mkNew (floorNumber numSpots : Nat) : Floor :=
  ⟨floorNumber, (List.range numSpots).map (fun i => ParkingSpot.mkNew floorNumber i)⟩

/-- `SIZE_MAX + 1`: the modulus of `size_t` arithmetic (64-bit target). -/
def sizeTCard : Nat := 2 ^ 64

/-- The `required == 2` loop of `Floor::findAvailableSpots`:
`for (size_t i = 0; i < spots.size() - 1; ++i)`, scanning for two consecutive
free spots.  `remaining` counts the iterations left (`bound - i` for the loop
bound `bound`).  A result of `none` models an out-of-range `spots[...]` access,
which is undefined behaviour in the C++. -/
def findTwoGo (spots : List ParkingSpot) : Nat → Nat → Option (List Nat)
  | 0, _ => some []
  | remaining + 1, i =>
    match spots[i]?, spots[i + 1]? with
    | some s1, some s2 =>
      if !s1.isOccupied && !s2.isOccupied then
        some [s1.spotNumber, s2.spotNumber]
      else
        findTwoGo spots remaining (i + 1)
    | _, _ => none

/-- The `required == 1` loop of `Floor::findAvailableSpots`: return the spot
number of the first free spot, or the empty vector. -/
def findOneGo : List ParkingSpot → List Nat
  | [] => []
  | s :: rest => if !s.isOccupied then [s.spotNumber] else findOneGo rest

/-- `Floor::findAvailableSpots`.  The `required == 2` branch iterates while
`i < spots.size() - 1` in `size_t` arithmetic, so for an empty spot vector the
bound underflows to `SIZE_MAX` and the first iteration reads `spots[0]` out of
range; `none` models that undefined behaviour. -/
def Floor.findAvailableSpots (fl : Floor) (vehicle : Vehicle) : Option (List Nat) :=
  let required := vehicle.getRequiredSpots
  if required = 1 then
    some (findOneGo fl.spots)
  else if required = 2 then
    findTwoGo fl.spots ((fl.spots.length + (sizeTCard - 1)) % sizeTCard) 0
  else
    some []

/-- Default spot used to totalize `getD` reads that the C++ performs only
after an explicit bounds check. -/
def defaultSpot : ParkingSpot := ParkingSpot.mkNew 0 0

/-- The assignment loop of `Floor::parkVehicle`: `spots[idx]->assignVehicle`
for each index in turn (the C++ ignores `assignVehicle`'s return value). -/
def assignLoop (spots : List ParkingSpot) (licensePlate : String) :
    List Nat → List ParkingSpot
  | [] => spots
  | idx :: rest =>
      assignLoop
        (spots.set idx (((spots.getD idx defaultSpot).assignVehicle licensePlate).2))
        licensePlate rest

/-- `Floor::parkVehicle`: first re-verify every index is in range and free
(the C++ also checks `idx < 0`, impossible for `Nat` indices), then assign all
of them.  If any check fails the floor is returned unchanged. -/
def Floor.parkVehicle (fl : Floor) (vehicle : Vehicle) (spotNumbers : List Nat) :
    Bool × Floor :=
  if spotNumbers.all
      (fun idx => decide (idx < fl.spots.length) &&
        !(fl.spots.getD idx defaultSpot).isOccupied) then
    (true, { fl with spots := assignLoop fl.spots vehicle.licensePlate spotNumbers })
  else
    (false, fl)

/-- `Floor::removeVehicle`: free every spot currently occupied by the plate;
the returned flag is `true` iff at least one spot matched. -/
def Floor.removeVehicle (fl : Floor) (licensePlate : String) : Bool × Floor :=
  (fl.spots.any (fun s => s.isOccupied && s.parkedVehicle == licensePlate),
   { fl with
      spots := fl.spots.map (fun s =>
        if s.isOccupied && s.parkedVehicle == licensePlate then
          (s.removeVehicle).2
        else s) })

/-- `Floor::availableSpotsCount`: the number of free spots on the floor. -/
def Floor.availableSpotsCount (fl : Floor) : Nat :=
  fl.spots.countP (fun s => !s.isOccupied)

/-- `std::unordered_map::find` on the association-list model of the map. -/
def lookupPlate {α : Type} (plate : String) : List (String × α) → Option α
  | [] => none
  | (q, v) :: rest => if plate = q then some v else lookupPlate plate rest

/-- One constructor per exit path of `ParkingLot::parkVehicle` (each path
prints a distinct message; the C++ `bool` return is `true` only for
`parked`). -/
inductive ParkResult
  | parked (floorNumber : Nat) (spotNumbers : List Nat)
  | alreadyParked
  | full
deriving DecidableEq, Repr

/-- One constructor per exit path of `ParkingLot::removeVehicle`:
`removed` prints the removal message and returns `true`; `notFound` prints
the not-found message and returns `false`; `silentFail` is the final
`return false` reached when the floor released no spot — it prints nothing. -/
inductive RemoveResult
  | removed (floorNumber : Nat)
  | notFound
  | silentFail
deriving DecidableEq, Repr

/-- The C++ `bool` actually returned by `ParkingLot::removeVehicle` on each
exit path. -/
def RemoveResult.toBool : RemoveResult → Bool
  | .removed _ => true
  | .notFound => false
  | .silentFail => false

/-- `class ParkingLot`: the two plate-keyed maps and the floor vector. -/
structure ParkingLot where
  vehicleLocations : List (String × Nat × List Nat)
  vehiclesMap : List (String × Vehicle)
  floors : List Floor
deriving DecidableEq, Repr

/-- The `ParkingLot` constructor: `numFloors` fresh floors, empty maps. -/
def ParkingLot.mkNew (numFloors spotsPerFloor : Nat) : ParkingLot :=
  ⟨[], [], (List.range numFloors).map (fun i => Floor.mkNew i spotsPerFloor)⟩

/-- The floor loop of `ParkingLot::parkVehicle`: ask each floor for a
placement, commit on the first non-empty proposal that `Floor::parkVehicle`
accepts, and thread the (possibly updated) floors through.  `none` propagates
the undefined behaviour of `Floor::findAvailableSpots`. -/
def parkLoop (vehicle : Vehicle) : List Floor → Option (Option (Nat × List Nat) × List Floor)
  | [] => some (none, [])
  | fl :: rest =>
    match fl.findAvailableSpots vehicle with
    | none => none
    | some availableSpots =>
      if availableSpots.isEmpty then
        match parkLoop vehicle rest with
        | none => none
        | some (res, rest') => some (res, fl :: rest')
      else
        match fl.parkVehicle vehicle availableSpots with
        | (true, fl') => some (some (fl.floorNumber, availableSpots), fl' :: rest)
        | (false, _) =>
          match parkLoop vehicle rest with
          | none => none
          | some (res, rest') => some (res, fl :: rest')

/-- `ParkingLot::parkVehicle`: reject a plate already present, otherwise scan
the floors in order; on success record the location and the vehicle. -/
def ParkingLot.parkVehicle (lot : ParkingLot) (vehicle : Vehicle) :
    Option (ParkResult × ParkingLot) :=
  if (lookupPlate vehicle.licensePlate lot.vehicleLocations).isSome then
    some (ParkResult.alreadyParked, lot)
  else
    match parkLoop vehicle lot.floors with
    | none => none
    | some (none, floors') => some (ParkResult.full, { lot with floors := floors' })
    | some (some (floorNumber, spotNumbers), floors') =>
      some (ParkResult.parked floorNumber spotNumbers,
        { vehicleLocations := (vehicle.licensePlate, floorNumber, spotNumbers) :: lot.vehicleLocations,
          vehiclesMap := (vehicle.licensePlate, vehicle) :: lot.vehiclesMap,
          floors := floors' })

/-- `ParkingLot::removeVehicle`: look the plate up, call the recorded floor's
`removeVehicle` (the C++ indexes `floors[floorNumber]`; `none` models an
out-of-range access), and erase the map entries only when the floor reports
that it removed something. -/
def ParkingLot.removeVehicle (lot : ParkingLot) (licensePlate : String) :
    Option (RemoveResult × ParkingLot) :=
  match lookupPlate licensePlate lot.vehicleLocations with
  | none => some (RemoveResult.notFound, lot)
  | some (floorNumber, _) =>
    match lot.floors[floorNumber]? with
    | none => none
    | some fl =>
      match fl.removeVehicle licensePlate with
      | (removed, fl') =>
        if removed then
          some (RemoveResult.removed floorNumber,
            { vehicleLocations := lot.vehicleLocations.filter (fun kv => kv.1 != licensePlate),
              vehiclesMap := lot.vehiclesMap.filter (fun kv => kv.1 != licensePlate),
              floors := lot.floors.set floorNumber fl' })
        else
          some (RemoveResult.silentFail, { lot with floors := lot.floors.set floorNumber fl' })

/-- `ParkingLot::getAvailableSpotsPerFloor`: the method only reads the floors
(under the lock), so the state-passing embedding returns the lot unchanged. -/
def ParkingLot.getAvailableSpotsPerFloor (lot : ParkingLot) : List Nat × ParkingLot :=
  (lot.floors.map Floor.availableSpotsCount, lot)

/-- `ParkingLot::isFull`: true iff no floor has a positive free count; the
method performs no writes. -/
def ParkingLot.isFull (lot : ParkingLot) : Bool × ParkingLot :=
  (!(lot.floors.any (fun fl => decide (0 < fl.availableSpotsCount))), lot)

/-- `ParkingLot::findVehicle`: reports the looked-up location (the C++ prints
it); the method performs no writes. -/
def ParkingLot.findVehicle (lot : ParkingLot) (licensePlate : String) :
    Option (Nat × List Nat) × ParkingLot :=
  (lookupPlate licensePlate lot.vehicleLocations, lot)

/-- The public operations of the Lot. -/
inductive Op
  | park (vehicle : Vehicle)
  | remove (licensePlate : String)
  | availableSpots
  | isFullQuery
  | findQuery (licensePlate : String)

/-- The state transition of one public operation (`none` = the run hit
undefined behaviour, so there is no successor state). -/
def ParkingLot.applyOp (lot : ParkingLot) : Op → Option ParkingLot
  | Op.park v => (lot.parkVehicle v).map Prod.snd
  | Op.remove p => (lot.removeVehicle p).map Prod.snd
  | Op.availableSpots => some (lot.getAvailableSpotsPerFloor).2
  | Op.isFullQuery => some (lot.isFull).2
  | Op.findQuery p => some (lot.findVehicle p).2

/-- Lot states reachable from construction by completed public operations.
The constructor parameters are C++ `int`s, hence bounded by `2 ^ 31`. -/
inductive Reachable : ParkingLot → Prop
  | init (numFloors spotsPerFloor : Nat) (hf : numFloors < 2 ^ 31)
      (hs : spotsPerFloor < 2 ^ 31) :
      Reachable (ParkingLot.mkNew numFloors spotsPerFloor)
  | step (lot lot' : ParkingLot) (op : Op) (h : Reachable lot)
      (happ : lot.applyOp op = some lot') : Reachable lot'

/-- Spot at position `j` of the list exists and is free. -/
def spotsFreeAt (spots : List ParkingSpot) (j : Nat) : Prop :=
  ∃ s, spots[j]? = some s ∧ s.isOccupied = false

/-- Spot `j` of the floor exists and is free. -/
def Floor.FreeAt (fl : Floor) (j : Nat) : Prop :=
  spotsFreeAt fl.spots j

/-- Spot `j` of the floor exists and is occupied by `plate`. -/
def Floor.OccupiedAtBy (fl : Floor) (j : Nat) (plate : String) : Prop :=
  ∃ s, fl.spots[j]? = some s ∧ s.isOccupied = true ∧ s.parkedVehicle = plate

/-- Modelled from the spec's words (for the first-fit refinement claim): the
floor offers `k` free spots, consecutive when `k = 2`. -/
def Floor.HasFit (fl : Floor) (k : Nat) : Prop :=
  if k = 2 then ∃ j, fl.FreeAt j ∧ fl.FreeAt (j + 1)
  else ∃ j, fl.FreeAt j

/-- Modelled from the spec's words (for the first-fit refinement claim):
`l` is the index-ascending first fit of size `k` on the floor — the smallest
starting index whose `k` spots are free, consecutive when `k = 2`. -/
def Floor.IsFirstFit (fl : Floor) (k : Nat) (l : List Nat) : Prop :=
  if k = 2 then
    ∃ j, l = [j, j + 1] ∧ fl.FreeAt j ∧ fl.FreeAt (j + 1) ∧
      ∀ j' < j, ¬(fl.FreeAt j' ∧ fl.FreeAt (j' + 1))
  else
    ∃ j, l = [j] ∧ fl.FreeAt j ∧ ∀ j' < j, ¬fl.FreeAt j'

/-- Structural well-formedness of a floor: the spot stored at position `j`
carries spot number `j` and the floor's number (true by construction, and
every operation preserves the identity fields). -/
def Floor.WF (fl : Floor) : Prop :=
  ∀ (j : Nat) (s : ParkingSpot), fl.spots[j]? = some s →
    s.spotNumber = j ∧ s.floorNumber = fl.floorNumber

/-- The inductive invariant of the lot: floors are well formed and small
enough for `size_t`, free spots carry an empty plate string, the two maps
share their key sequence, and occupancy agrees with `vehicleLocations` in
both directions. -/
structure Inv (lot : ParkingLot) : Prop where
  floors_id : ∀ (i : Nat) (fl : Floor), lot.floors[i]? = some fl → fl.floorNumber = i
  floors_wf : ∀ (i : Nat) (fl : Floor), lot.floors[i]? = some fl → fl.WF
  floors_small : ∀ (i : Nat) (fl : Floor), lot.floors[i]? = some fl →
      fl.spots.length < sizeTCard
  free_clean : ∀ (i : Nat) (fl : Floor) (j : Nat) (s : ParkingSpot),
      lot.floors[i]? = some fl → fl.spots[j]? = some s →
      s.isOccupied = false → s.parkedVehicle = ""
  keys_eq : lot.vehicleLocations.map Prod.fst = lot.vehiclesMap.map Prod.fst
  occ_fwd : ∀ (i : Nat) (fl : Floor) (j : Nat) (s : ParkingSpot),
      lot.floors[i]? = some fl → fl.spots[j]? = some s →
      s.isOccupied = true →
      ∃ I, lookupPlate s.parkedVehicle lot.vehicleLocations = some (i, I) ∧ j ∈ I
  occ_bwd : ∀ p fi I, lookupPlate p lot.vehicleLocations = some (fi, I) →
      ∃ fl, lot.floors[fi]? = some fl ∧ ∀ j ∈ I, fl.OccupiedAtBy j p

/-- A concrete Car with plate `"X"` (scenario S5 of the spec). -/
def carX : Vehicle := ⟨"X", VehicleType.Car⟩

/-- A concrete Bike with the duplicate plate `"X"` (scenario S5). -/
def bikeX : Vehicle := ⟨"X", VehicleType.Bike⟩

/-- A concrete Car with plate `"A"`. -/
def carA : Vehicle := ⟨"A", VehicleType.Car⟩

/-- A concrete Truck with plate `"T1"`. -/
def truckT1 : Vehicle := ⟨"T1", VehicleType.Truck⟩

/-- A floor built with zero spots (`spots_per_floor = 0`). -/
def emptyFloor : Floor := ⟨0, []⟩

/-- A floor whose two spots are both occupied by the truck plate `"T"`. -/
def floorTT : Floor := ⟨0, [⟨0, 0, true, "T"⟩, ⟨0, 1, true, "T"⟩]⟩

/-- A lot whose location map claims plate `"P"` parks at `(0, [0])` while the
spot is in fact free: the broken-invariant state the spec's `Corrupted`
discussion is about. -/
def corruptLot : ParkingLot :=
  ⟨[("P", 0, [0])], [("P", ⟨"P", VehicleType.Car⟩)], [⟨0, [⟨0, 0, false, ""⟩]⟩]⟩

/-- `Lot(1, 2)` after a successful `park("X", Car)` (scenario S5). -/
def lotXParked : ParkingLot :=
  ⟨[("X", 0, [0])], [("X", carX)], [⟨0, [⟨0, 0, true, "X"⟩, ⟨0, 1, false, ""⟩]⟩]⟩

/-- `Lot(2, 3)` after a successful `park("T1", Truck)`. -/
def lotT1Parked : ParkingLot :=
  ⟨[("T1", 0, [0, 1])], [("T1", truckT1)],
   [⟨0, [⟨0, 0, true, "T1"⟩, ⟨0, 1, true, "T1"⟩, ⟨0, 2, false, ""⟩]⟩,
    ⟨1, [⟨1, 0, false, ""⟩, ⟨1, 1, false, ""⟩, ⟨1, 2, false, ""⟩]⟩]⟩

/-- `Lot(1, 1)` after a successful `park("A", Car)`. -/
def lotAParked : ParkingLot :=
  ⟨[("A", 0, [0])], [("A", carA)], [⟨0, [⟨0, 0, true, "A"⟩]⟩]⟩

/-! ### Helper lemmas about the association-list maps -/

theorem lookupPlate_cons {α : Type} (p q : String) (v : α) (rest : List (String × α)) :
    lookupPlate p ((q, v) :: rest) = if p = q then some v else lookupPlate p rest := rfl

theorem lookupPlate_eq_none_iff {α : Type} (p : String) (l : List (String × α)) :
    lookupPlate p l = none ↔ ∀ kv ∈ l, kv.1 ≠ p := by
  induction l with
  | nil => simp [lookupPlate]
  | cons kv rest ih =>
    obtain ⟨q, v⟩ := kv
    by_cases h : p = q
    · subst h; simp [lookupPlate]
    · rw [lookupPlate_cons, if_neg h, ih]
      constructor
      · intro hall kv hkv
        rcases List.mem_cons.mp hkv with rfl | hmem
        · exact fun hq => h hq.symm
        · exact hall kv hmem
      · intro hall kv hkv
        exact hall kv (List.mem_cons_of_mem _ hkv)

theorem lookupPlate_filter_ne {α : Type} {p q : String} (hne : q ≠ p)
    (l : List (String × α)) :
    lookupPlate q (l.filter (fun kv => kv.1 != p)) = lookupPlate q l := by
  induction l with
  | nil => rfl
  | cons kv rest ih =>
    obtain ⟨r, v⟩ := kv
    by_cases hr : r = p
    · subst hr
      simp [List.filter_cons, lookupPlate_cons, hne, ih]
    · simp [List.filter_cons, bne_iff_ne, hr, lookupPlate_cons, ih]

theorem lookupPlate_filter_self {α : Type} (p : String) (l : List (String × α)) :
    lookupPlate p (l.filter (fun kv => kv.1 != p)) = none := by
  rw [lookupPlate_eq_none_iff]
  intro kv hkv
  have := List.of_mem_filter hkv
  simpa [bne_iff_ne] using this

theorem filter_eq_self_of_lookup_none {α : Type} (p : String) (l : List (String × α))
    (h : lookupPlate p l = none) : l.filter (fun kv => kv.1 != p) = l := by
  rw [lookupPlate_eq_none_iff] at h
  exact List.filter_eq_self.mpr fun kv hkv => by simpa [bne_iff_ne] using h kv hkv

/-- Writing back the value already stored at an index leaves a list unchanged. -/
theorem set_self_of_getElem? {α : Type} (l : List α) (i : Nat) (a : α)
    (h : l[i]? = some a) : l.set i a = l := by
  apply List.ext_getElem?
  intro j
  by_cases hij : i = j
  · subst hij
    have hi : i < l.length := by
      by_contra hge
      rw [List.getElem?_eq_none (by omega)] at h
      exact Option.noConfusion h
    rw [List.getElem?_set_eq_of_lt a hi, h]
  · exact List.getElem?_set_ne hij

/-! ### Characterization of the per-floor search loops -/

/-- The `required == 1` loop finds the first free spot (if any) and reports
its recorded spot number; `d` is the offset of `spots` inside its floor. -/
theorem findOneGo_spec (spots : List ParkingSpot) (d : Nat)
    (hWF : ∀ (j : Nat) (s : ParkingSpot), spots[j]? = some s → s.spotNumber = d + j) :
    (findOneGo spots = [] ∧
      ∀ (j : Nat) (s : ParkingSpot), spots[j]? = some s → s.isOccupied = true)
    ∨ ∃ j s, spots[j]? = some s ∧ s.isOccupied = false ∧ findOneGo spots = [d + j] ∧
        ∀ (j' : Nat) (s' : ParkingSpot), j' < j → spots[j']? = some s' →
          s'.isOccupied = true := by
  induction spots generalizing d with
  | nil => left; constructor <;> simp [findOneGo]
  | cons s rest ih =>
    by_cases hocc : s.isOccupied
    · have hWF' : ∀ (j : Nat) (s' : ParkingSpot), rest[j]? = some s' →
          s'.spotNumber = (d + 1) + j := by
        intro j s' hj
        have := hWF (j + 1) s' (by simpa using hj)
        omega
      rcases ih (d + 1) hWF' with ⟨hres, hall⟩ | ⟨j, s', hj, hfree, hres, hmin⟩
      · left
        refine ⟨by simp [findOneGo, hocc, hres], ?_⟩
        intro j t hjt
        match j with
        | 0 => simp at hjt; exact hjt ▸ hocc
        | j + 1 => exact hall j t (by simpa using hjt)
      · right
        refine ⟨j + 1, s', by simpa using hj, hfree, ?_, ?_⟩
        · rw [show d + (j + 1) = (d + 1) + j by omega]
          simp [findOneGo, hocc, hres]
        · intro j' t hj' hjt
          match j' with
          | 0 => simp at hjt; subst hjt; exact hocc
          | j' + 1 => exact hmin j' t (by omega) (by simpa using hjt)
    · right
      refine ⟨0, s, by simp, by simpa using hocc, ?_, ?_⟩
      · have hd : s.spotNumber = d := by simpa using hWF 0 s (by simp)
        simp [findOneGo, hocc, hd]
      · intro j' t hj' _
        omega

/-- The `required == 2` loop, run with `remaining = bound - i` iterations left
where `bound = spots.length - 1`, finds the first consecutive pair of free
spots at or after `i` (if any). -/
theorem findTwoGo_spec (spots : List ParkingSpot)
    (hWF : ∀ (j : Nat) (s : ParkingSpot), spots[j]? = some s → s.spotNumber = j)
    (r : Nat) : ∀ i : Nat, i + r + 1 = spots.length →
    (findTwoGo spots r i = some [] ∧
      ∀ j, i ≤ j → ¬(spotsFreeAt spots j ∧ spotsFreeAt spots (j + 1)))
    ∨ ∃ j, i ≤ j ∧ findTwoGo spots r i = some [j, j + 1] ∧
        spotsFreeAt spots j ∧ spotsFreeAt spots (j + 1) ∧
        ∀ j', i ≤ j' → j' < j →
          ¬(spotsFreeAt spots j' ∧ spotsFreeAt spots (j' + 1)) := by
  induction r with
  | zero =>
    intro i hri
    left
    refine ⟨rfl, ?_⟩
    rintro j hij ⟨_, t, ht, _⟩
    have : j + 1 < spots.length := by
      by_contra hge
      rw [List.getElem?_eq_none (by omega)] at ht
      exact Option.noConfusion ht
    omega
  | succ r ih =>
    intro i hri
    have hi : i < spots.length := by omega
    have hi1 : i + 1 < spots.length := by omega
    have h1 : spots[i]? = some spots[i] := List.getElem?_eq_getElem hi
    have h2 : spots[i + 1]? = some spots[i + 1] := List.getElem?_eq_getElem hi1
    have hnum1 : spots[i].spotNumber = i := (hWF i _ h1)
    have hnum2 : spots[i + 1].spotNumber = i + 1 := (hWF (i + 1) _ h2)
    by_cases hfree : spots[i].isOccupied = false ∧ spots[i + 1].isOccupied = false
    · right
      refine ⟨i, le_refl i, ?_, ⟨_, h1, hfree.1⟩, ⟨_, h2, hfree.2⟩, ?_⟩
      · rw [findTwoGo, h1, h2]
        simp [hfree.1, hfree.2, hnum1, hnum2]
      · intro j' h1' h2'
        omega
    · have hres : findTwoGo spots (r + 1) i = findTwoGo spots r (i + 1) := by
        rw [findTwoGo, h1, h2]
        have hb : (!spots[i].isOccupied && !spots[i + 1].isOccupied) = false := by
          cases ho1 : spots[i].isOccupied <;> cases ho2 : spots[i + 1].isOccupied <;>
            simp_all
        simp [hb]
      have hnotpair : ¬(spotsFreeAt spots i ∧ spotsFreeAt spots (i + 1)) := by
        rintro ⟨⟨t1, ht1, hf1⟩, t2, ht2, hf2⟩
        rw [h1] at ht1
        rw [h2] at ht2
        cases ht1
        cases ht2
        exact hfree ⟨hf1, hf2⟩
      rcases ih (i + 1) (by omega) with ⟨hres', hall⟩ | ⟨j, hij, hres', hp1, hp2, hmin⟩
      · left
        refine ⟨hres ▸ hres', ?_⟩
        intro j hij
        rcases Nat.eq_or_lt_of_le hij with rfl | hlt
        · exact hnotpair
        · exact hall j hlt
      · right
        refine ⟨j, by omega, hres ▸ hres', hp1, hp2, ?_⟩
        intro j' h1' h2'
        rcases Nat.eq_or_lt_of_le h1' with rfl | hlt
        · exact hnotpair
        · exact hmin j' hlt h2'

/-- On an empty spot vector every iteration of the pair-search loop reads out
of range. -/
theorem findTwoGo_nil (r i : Nat) : findTwoGo [] (r + 1) i = none := by
  rw [findTwoGo]
  simp

theorem getRequiredSpots_cases (v : Vehicle) :
    v.getRequiredSpots = 1 ∨ v.getRequiredSpots = 2 := by
  unfold Vehicle.getRequiredSpots
  split <;> simp

theorem sizeTCard_eq : sizeTCard = 18446744073709551616 := by norm_num [sizeTCard]

/-- On a well-formed floor (with a `size_t`-sized spot vector) a completed
search returns either the empty list — and then no fit exists — or the
index-ascending first fit. -/
theorem findAvailableSpots_spec (fl : Floor) (v : Vehicle) (hWF : fl.WF)
    (hsmall : fl.spots.length < sizeTCard) (l : List Nat)
    (hfind : fl.findAvailableSpots v = some l) :
    (l = [] ∧ ¬ fl.HasFit v.getRequiredSpots) ∨
    (l ≠ [] ∧ fl.IsFirstFit v.getRequiredSpots l) := by
  rcases getRequiredSpots_cases v with hk | hk
  · -- one required spot
    rw [Floor.findAvailableSpots] at hfind
    simp only [hk] at hfind
    norm_num at hfind
    have hWF0 : ∀ (j : Nat) (s : ParkingSpot), fl.spots[j]? = some s →
        s.spotNumber = 0 + j := by
      intro j s hj
      have := (hWF j s hj).1
      omega
    rcases findOneGo_spec fl.spots 0 hWF0 with ⟨hres, hall⟩ | ⟨j, s, hj, hfree, hres, hmin⟩
    · left
      refine ⟨by rw [← hfind, hres], ?_⟩
      rw [hk]
      simp only [Floor.HasFit, Floor.FreeAt, spotsFreeAt]
      norm_num
      intro j t hjt
      exact hall j t hjt
    · right
      constructor
      · rw [← hfind, hres]; simp
      · rw [hk]
        simp only [Floor.IsFirstFit]
        norm_num
        refine ⟨j, by rw [← hfind, hres]; simp, ⟨s, hj, hfree⟩, ?_⟩
        rintro j' hj' ⟨t, hjt, ht⟩
        have := hmin j' t hj' hjt
        rw [this] at ht
        exact Bool.noConfusion ht
  · -- two required spots
    rw [Floor.findAvailableSpots] at hfind
    simp only [hk] at hfind
    rw [if_neg (by norm_num)] at hfind
    simp only [if_pos trivial] at hfind
    rcases Nat.eq_zero_or_pos fl.spots.length with hlen0 | hpos
    · -- zero spots: the size_t bound underflows and the loop reads spots[0]
      exfalso
      have hnil : fl.spots = [] := List.length_eq_zero.mp hlen0
      have hbound : (fl.spots.length + (sizeTCard - 1)) % sizeTCard =
          (sizeTCard - 2) + 1 := by
        rw [hlen0, sizeTCard_eq]
      rw [hbound, hnil, findTwoGo_nil] at hfind
      exact Option.noConfusion hfind
    · have hbound : (fl.spots.length + (sizeTCard - 1)) % sizeTCard =
          fl.spots.length - 1 := by
        have hC := sizeTCard_eq
        have h1 : fl.spots.length + (sizeTCard - 1) =
            (fl.spots.length - 1) + 1 * sizeTCard := by omega
        rw [h1, Nat.add_mul_mod_self_right, Nat.mod_eq_of_lt (by omega)]
      rw [hbound] at hfind
      have hWF1 : ∀ (j : Nat) (s : ParkingSpot), fl.spots[j]? = some s →
          s.spotNumber = j := fun j s hj => (hWF j s hj).1
      rcases findTwoGo_spec fl.spots hWF1 (fl.spots.length - 1) 0 (by omega) with
        ⟨hres, hall⟩ | ⟨j, _, hres, hp1, hp2, hmin⟩
      · left
        refine ⟨by rw [hres] at hfind; exact (Option.some.injEq _ _ ▸ hfind).symm, ?_⟩
        rw [hk]
        simp only [Floor.HasFit, Floor.FreeAt]
        norm_num
        rintro j hpair1 hpair2
        exact hall j (Nat.zero_le j) ⟨hpair1, hpair2⟩
      · right
        rw [hres] at hfind
        have hl : l = [j, j + 1] := by
          exact (Option.some.injEq _ _ ▸ hfind).symm
        constructor
        · rw [hl]; simp
        · rw [hk]
          simp only [Floor.IsFirstFit]
          norm_num
          exact ⟨j, hl, hp1, hp2,
            fun j' hj' hq1 hq2 => hmin j' (Nat.zero_le j') hj' ⟨hq1, hq2⟩⟩

/-! ### The commit step (`Floor::parkVehicle`) -/

theorem lt_length_of_getElem? {α : Type} {l : List α} {i : Nat} {a : α}
    (h : l[i]? = some a) : i < l.length := by
  by_contra hge
  rw [List.getElem?_eq_none (by omega)] at h
  exact Option.noConfusion h

/-- The re-check loop of `Floor::parkVehicle` passes exactly when every
requested index denotes an existing free spot. -/
theorem spotsCheck_iff (spots : List ParkingSpot) (l : List Nat) :
    (l.all (fun idx => decide (idx < spots.length) &&
      !(spots.getD idx defaultSpot).isOccupied) = true) ↔
    ∀ idx ∈ l, spotsFreeAt spots idx := by
  rw [List.all_eq_true]
  apply forall_congr'
  intro idx
  apply imp_congr_right
  intro _
  rw [Bool.and_eq_true, decide_eq_true_iff, Bool.not_eq_true']
  constructor
  · rintro ⟨hlt, hocc⟩
    refine ⟨spots[idx], List.getElem?_eq_getElem hlt, ?_⟩
    rwa [List.getD_eq_getElem?_getD, List.getElem?_eq_getElem hlt] at hocc
  · rintro ⟨s, hs, hocc⟩
    refine ⟨lt_length_of_getElem? hs, ?_⟩
    rw [List.getD_eq_getElem?_getD, hs]
    exact hocc

theorem parkVehicle_fst_iff (fl : Floor) (v : Vehicle) (l : List Nat) :
    (fl.parkVehicle v l).1 = true ↔ ∀ idx ∈ l, spotsFreeAt fl.spots idx := by
  by_cases h : (l.all (fun idx => decide (idx < fl.spots.length) &&
      !(fl.spots.getD idx defaultSpot).isOccupied)) = true
  · rw [Floor.parkVehicle, if_pos h]
    simpa using (spotsCheck_iff fl.spots l).mp h
  · rw [Floor.parkVehicle, if_neg h]
    simp only [Bool.false_eq_true, false_iff]
    intro hall
    exact h ((spotsCheck_iff fl.spots l).mpr hall)

/-- If any re-check fails, `Floor::parkVehicle` changes nothing. -/
theorem parkVehicle_fail_frame (fl : Floor) (v : Vehicle) (l : List Nat)
    (h : (fl.parkVehicle v l).1 = false) : fl.parkVehicle v l = (false, fl) := by
  by_cases hc : (l.all (fun idx => decide (idx < fl.spots.length) &&
      !(fl.spots.getD idx defaultSpot).isOccupied)) = true
  · rw [Floor.parkVehicle, if_pos hc] at h
    exact absurd h (by simp)
  · rw [Floor.parkVehicle, if_neg hc]

theorem assignVehicle_free (s : ParkingSpot) (p : String) (h : s.isOccupied = false) :
    (s.assignVehicle p).2 = { s with parkedVehicle := p, isOccupied := true } := by
  rw [ParkingSpot.assignVehicle, if_neg (by simp [h])]

/-- Committing a single-spot proposal on a free, in-range index. -/
theorem parkVehicle_commit_single (fl : Floor) (v : Vehicle) (j : Nat)
    (s : ParkingSpot) (hj : fl.spots[j]? = some s) (hfree : s.isOccupied = false) :
    fl.parkVehicle v [j] =
      (true, ⟨fl.floorNumber,
        fl.spots.set j { s with parkedVehicle := v.licensePlate, isOccupied := true }⟩) := by
  have hcheck := (spotsCheck_iff fl.spots [j]).mpr
    (by intro idx hidx; rw [List.mem_singleton] at hidx; subst hidx; exact ⟨s, hj, hfree⟩)
  rw [Floor.parkVehicle, if_pos hcheck]
  unfold assignLoop assignLoop
  rw [List.getD_eq_getElem?_getD, hj]
  simp only [Option.getD_some, assignVehicle_free s _ hfree]

/-- Committing a two-spot proposal on free, in-range consecutive indices. -/
theorem parkVehicle_commit_pair (fl : Floor) (v : Vehicle) (j : Nat)
    (s1 s2 : ParkingSpot) (hj1 : fl.spots[j]? = some s1) (hj2 : fl.spots[j + 1]? = some s2)
    (hf1 : s1.isOccupied = false) (hf2 : s2.isOccupied = false) :
    fl.parkVehicle v [j, j + 1] =
      (true, ⟨fl.floorNumber,
        (fl.spots.set j { s1 with parkedVehicle := v.licensePlate, isOccupied := true }).set
          (j + 1) { s2 with parkedVehicle := v.licensePlate, isOccupied := true }⟩) := by
  have hcheck := (spotsCheck_iff fl.spots [j, j + 1]).mpr (by
    intro idx hidx
    rcases List.mem_pair.mp hidx with rfl | rfl
    · exact ⟨s1, hj1, hf1⟩
    · exact ⟨s2, hj2, hf2⟩)
  rw [Floor.parkVehicle, if_pos hcheck]
  unfold assignLoop assignLoop assignLoop
  rw [List.getD_eq_getElem?_getD, hj1]
  simp only [Option.getD_some, assignVehicle_free s1 _ hf1]
  rw [List.getD_eq_getElem?_getD, List.getElem?_set_ne (by omega), hj2]
  simp only [Option.getD_some, assignVehicle_free s2 _ hf2]

/-! ### The release step (`Floor::removeVehicle`) -/

theorem floorRemove_fst_iff (fl : Floor) (p : String) :
    (fl.removeVehicle p).1 = true ↔
    ∃ s ∈ fl.spots, s.isOccupied = true ∧ s.parkedVehicle = p := by
  rw [Floor.removeVehicle]
  simp [List.any_eq_true]

theorem floorRemove_floorNumber (fl : Floor) (p : String) :
    (fl.removeVehicle p).2.floorNumber = fl.floorNumber := rfl

theorem floorRemove_length (fl : Floor) (p : String) :
    (fl.removeVehicle p).2.spots.length = fl.spots.length := by
  simp [Floor.removeVehicle]

/-- Pointwise description of the floor after a release: every spot occupied
by the plate is freed (with its plate string cleared), everything else is
untouched. -/
theorem floorRemove_getElem (fl : Floor) (p : String) (j : Nat) :
    (fl.removeVehicle p).2.spots[j]? = (fl.spots[j]?).map (fun s =>
      if s.isOccupied && s.parkedVehicle == p then
        { s with parkedVehicle := "", isOccupied := false } else s) := by
  cases hj : fl.spots[j]? with
  | none =>
    simp [Floor.removeVehicle, List.getElem?_map, hj]
  | some s =>
    simp only [Floor.removeVehicle, List.getElem?_map, hj, Option.map_some']
    congr 1
    by_cases hc : (s.isOccupied && s.parkedVehicle == p) = true
    · rw [if_pos hc, if_pos hc, ParkingSpot.removeVehicle,
        if_neg (by simp [(Bool.and_eq_true _ _ |>.mp hc).1])]
    · rw [if_neg hc, if_neg hc]

theorem floorRemove_id_of_fst_false (fl : Floor) (p : String)
    (h : (fl.removeVehicle p).1 = false) : (fl.removeVehicle p).2 = fl := by
  have hall : ∀ s ∈ fl.spots, ¬(s.isOccupied = true ∧ s.parkedVehicle = p) := by
    intro s hs
    rw [Floor.removeVehicle] at h
    simp only [List.any_eq_false] at h
    simpa using h s hs
  obtain ⟨fn, spots⟩ := fl
  simp only [Floor.removeVehicle, Floor.mk.injEq, true_and]
  calc spots.map (fun s => if s.isOccupied && s.parkedVehicle == p then
          (s.removeVehicle).2 else s)
      = spots.map id := by
        apply List.map_congr_left
        intro s hs
        rw [if_neg (by simpa using hall s hs), id]
    _ = spots := List.map_id spots


theorem parkLoop_none_frame (v : Vehicle) (floors : List Floor) :
    ∀ floors', parkLoop v floors = some (none, floors') → floors' = floors := by
  induction floors with
  | nil =>
    intro floors' h
    simp [parkLoop] at h
    exact h
  | cons fl rest ih =>
    intro floors' h
    rw [parkLoop] at h
    cases hfind : fl.findAvailableSpots v with
    | none => rw [hfind] at h; exact Option.noConfusion h
    | some avail =>
      rw [hfind] at h
      simp only at h
      by_cases hemp : avail.isEmpty
      · rw [if_pos hemp] at h
        cases hrec : parkLoop v rest with
        | none => rw [hrec] at h; exact Option.noConfusion h
        | some pr =>
          obtain ⟨res, rest'⟩ := pr
          rw [hrec] at h
          simp only [Option.some.injEq, Prod.mk.injEq] at h
          obtain ⟨hres, hfl⟩ := h
          rw [← hfl, ih rest' (by rw [hrec, hres])]
      · rw [if_neg hemp] at h
        cases hcommit : fl.parkVehicle v avail with
        | mk ok fl' =>
          rw [hcommit] at h
          cases ok with
          | true =>
            simp only [Option.some.injEq, Prod.mk.injEq] at h
            exact absurd h.1.symm (by simp)
          | false =>
            simp only at h
            cases hrec : parkLoop v rest with
            | none => rw [hrec] at h; exact Option.noConfusion h
            | some pr =>
              obtain ⟨res, rest'⟩ := pr
              rw [hrec] at h
              simp only [Option.some.injEq, Prod.mk.injEq] at h
              obtain ⟨hres, hfl⟩ := h
              rw [← hfl, ih rest' (by rw [hrec, hres])]

theorem parkLoop_success_decomp (v : Vehicle) (floors : List Floor) :
    ∀ (floors' : List Floor) (fn : Nat) (l : List Nat),
    parkLoop v floors = some (some (fn, l), floors') →
    ∃ k fl, floors[k]? = some fl ∧ fl.findAvailableSpots v = some l ∧ l ≠ [] ∧
      (fl.parkVehicle v l).1 = true ∧ fn = fl.floorNumber ∧
      floors' = floors.set k (fl.parkVehicle v l).2 ∧
      ∀ (k' : Nat) (fl' : Floor), k' < k → floors[k']? = some fl' →
        ∃ a, fl'.findAvailableSpots v = some a ∧
          (a = [] ∨ (fl'.parkVehicle v a).1 = false) := by
  induction floors with
  | nil => intro floors' fn l h; simp [parkLoop] at h
  | cons fl rest ih =>
    intro floors' fn l h
    rw [parkLoop] at h
    cases hfind : fl.findAvailableSpots v with
    | none => rw [hfind] at h; exact Option.noConfusion h
    | some avail =>
      rw [hfind] at h
      simp only at h
      by_cases hemp : avail.isEmpty
      · rw [if_pos hemp] at h
        cases hrec : parkLoop v rest with
        | none => rw [hrec] at h; exact Option.noConfusion h
        | some pr =>
          obtain ⟨res, rest'⟩ := pr
          rw [hrec] at h
          simp only [Option.some.injEq, Prod.mk.injEq] at h
          obtain ⟨hres, hfl⟩ := h
          obtain ⟨k, flk, hk, hfindk, hlne, hcommit, hfn, hset, hearlier⟩ :=
            ih rest' fn l (by rw [hrec, hres])
          refine ⟨k + 1, flk, by simpa using hk, hfindk, hlne, hcommit, hfn, ?_, ?_⟩
          · rw [← hfl, hset]; rfl
          · intro k' fl' hk' hk'mem
            match k' with
            | 0 =>
              have hfl' : fl' = fl := by simp at hk'mem; exact hk'mem.symm
              subst hfl'
              exact ⟨avail, hfind, Or.inl (by simpa using hemp)⟩
            | k' + 1 =>
              exact hearlier k' fl' (by omega) (by simpa using hk'mem)
      · rw [if_neg hemp] at h
        cases hcommit : fl.parkVehicle v avail with
        | mk ok fl2 =>
          rw [hcommit] at h
          cases ok with
          | true =>
            simp only [Option.some.injEq, Prod.mk.injEq] at h
            obtain ⟨⟨hfn, hl⟩, hfl⟩ := h
            subst hfn
            subst hl
            refine ⟨0, fl, by simp, hfind, ?_, by rw [hcommit], rfl, ?_, ?_⟩
            · intro hav
              rw [hav] at hemp
              exact hemp rfl
            · rw [← hfl, hcommit]; rfl
            · intro k' fl' hk' _
              omega
          | false =>
            simp only at h
            cases hrec : parkLoop v rest with
            | none => rw [hrec] at h; exact Option.noConfusion h
            | some pr =>
              obtain ⟨res, rest'⟩ := pr
              rw [hrec] at h
              simp only [Option.some.injEq, Prod.mk.injEq] at h
              obtain ⟨hres, hfl⟩ := h
              obtain ⟨k, flk, hk, hfindk, hlne, hcommitk, hfn, hset, hearlier⟩ :=
                ih rest' fn l (by rw [hrec, hres])
              refine ⟨k + 1, flk, by simpa using hk, hfindk, hlne, hcommitk, hfn, ?_, ?_⟩
              · rw [← hfl, hset]; rfl
              · intro k' fl' hk' hk'mem
                match k' with
                | 0 =>
                  have hfl' : fl' = fl := by simp at hk'mem; exact hk'mem.symm
                  subst hfl'
                  exact ⟨avail, hfind, Or.inr (by rw [hcommit])⟩
                | k' + 1 =>
                  exact hearlier k' fl' (by omega) (by simpa using hk'mem)

/-! ### `ParkingLot::parkVehicle` -/

/-- A first fit consists of existing free spots. -/
theorem IsFirstFit_all_free (fl : Floor) (k : Nat) (l : List Nat)
    (hfit : fl.IsFirstFit k l) : ∀ idx ∈ l, spotsFreeAt fl.spots idx := by
  unfold Floor.IsFirstFit at hfit
  split at hfit
  · obtain ⟨j, rfl, h1, h2, _⟩ := hfit
    intro idx hidx
    rcases List.mem_pair.mp hidx with rfl | rfl
    · exact h1
    · exact h2
  · obtain ⟨j, rfl, h1, _⟩ := hfit
    intro idx hidx
    rw [List.mem_singleton] at hidx
    subst hidx
    exact h1

/-- Exit-path analysis of `ParkingLot::parkVehicle`: a duplicate plate or a
full lot leaves the state untouched, and any other completed call parked the
vehicle. -/
theorem parkVehicle_cases (lot : ParkingLot) (v : Vehicle) (r : ParkResult)
    (lot' : ParkingLot) (h : lot.parkVehicle v = some (r, lot')) :
    (r = ParkResult.alreadyParked ∧ lot' = lot ∧
      (lookupPlate v.licensePlate lot.vehicleLocations).isSome = true) ∨
    (lookupPlate v.licensePlate lot.vehicleLocations = none ∧
      ((r = ParkResult.full ∧ lot' = lot) ∨ ∃ f l, r = ParkResult.parked f l)) := by
  rw [ParkingLot.parkVehicle] at h
  by_cases hdup : (lookupPlate v.licensePlate lot.vehicleLocations).isSome
  · rw [if_pos hdup] at h
    simp only [Option.some.injEq, Prod.mk.injEq] at h
    exact Or.inl ⟨h.1.symm, h.2.symm, hdup⟩
  · rw [if_neg hdup] at h
    have hnone : lookupPlate v.licensePlate lot.vehicleLocations = none := by
      cases hl : lookupPlate v.licensePlate lot.vehicleLocations
      · rfl
      · rw [hl] at hdup; exact absurd rfl hdup
    refine Or.inr ⟨hnone, ?_⟩
    cases hloop : parkLoop v lot.floors with
    | none => rw [hloop] at h; exact Option.noConfusion h
    | some pr =>
      obtain ⟨res, floors'⟩ := pr
      rw [hloop] at h
      cases res with
      | none =>
        simp only [Option.some.injEq, Prod.mk.injEq] at h
        left
        have hfr := parkLoop_none_frame v lot.floors floors' hloop
        refine ⟨h.1.symm, ?_⟩
        rw [← h.2, hfr]
      | some fnl =>
        obtain ⟨fn, l0⟩ := fnl
        simp only [Option.some.injEq, Prod.mk.injEq] at h
        exact Or.inr ⟨fn, l0, h.1.symm⟩

/-- Decomposition of a successful `ParkingLot::parkVehicle` under the
invariant: the plate was absent, the chosen floor holds the first fit, all
earlier floors have no fit, and the new state is the committed one. -/
theorem parkVehicle_success_decomp (lot : ParkingLot) (v : Vehicle) (f : Nat)
    (l : List Nat) (lot' : ParkingLot) (hInv : Inv lot)
    (h : lot.parkVehicle v = some (ParkResult.parked f l, lot')) :
    lookupPlate v.licensePlate lot.vehicleLocations = none ∧
    ∃ fl, lot.floors[f]? = some fl ∧
      fl.findAvailableSpots v = some l ∧ l ≠ [] ∧
      fl.IsFirstFit v.getRequiredSpots l ∧
      (∀ (f' : Nat) (fl' : Floor), f' < f → lot.floors[f']? = some fl' →
        ¬ fl'.HasFit v.getRequiredSpots) ∧
      lot' = ⟨(v.licensePlate, f, l) :: lot.vehicleLocations,
              (v.licensePlate, v) :: lot.vehiclesMap,
              lot.floors.set f (fl.parkVehicle v l).2⟩ := by
  rw [ParkingLot.parkVehicle] at h
  by_cases hdup : (lookupPlate v.licensePlate lot.vehicleLocations).isSome
  · rw [if_pos hdup] at h
    simp at h
  · rw [if_neg hdup] at h
    have hnone : lookupPlate v.licensePlate lot.vehicleLocations = none := by
      cases hl : lookupPlate v.licensePlate lot.vehicleLocations
      · rfl
      · rw [hl] at hdup; exact absurd rfl hdup
    refine ⟨hnone, ?_⟩
    cases hloop : parkLoop v lot.floors with
    | none => rw [hloop] at h; exact Option.noConfusion h
    | some pr =>
      obtain ⟨res, floors'⟩ := pr
      rw [hloop] at h
      cases res with
      | none => simp at h
      | some fnl =>
        obtain ⟨fn, l0⟩ := fnl
        simp only [Option.some.injEq, Prod.mk.injEq, ParkResult.parked.injEq] at h
        obtain ⟨⟨hfn, hl0⟩, hlot'⟩ := h
        subst hfn
        subst hl0
        obtain ⟨k, fl, hk, hfind, hlne, hcommit, hfn2, hset, hearlier⟩ :=
          parkLoop_success_decomp v lot.floors floors' fn l0 hloop
        have hkf : k = fn := by
          have := hInv.floors_id k fl hk
          omega
        subst hkf
        have hWFfl := hInv.floors_wf k fl hk
        have hsmall := hInv.floors_small k fl hk
        have hfit : fl.IsFirstFit v.getRequiredSpots l0 := by
          rcases findAvailableSpots_spec fl v hWFfl hsmall l0 hfind with ⟨hl, _⟩ | ⟨_, hfit⟩
          · exact absurd hl hlne
          · exact hfit
        refine ⟨fl, hk, hfind, hlne, hfit, ?_, ?_⟩
        · intro f' fl' hf' hfl' hhasfit
          obtain ⟨a, hfinda, hcase⟩ := hearlier f' fl' hf' hfl'
          have hWFfl' := hInv.floors_wf f' fl' hfl'
          have hsmall' := hInv.floors_small f' fl' hfl'
          rcases findAvailableSpots_spec fl' v hWFfl' hsmall' a hfinda with
            ⟨_, hnofit⟩ | ⟨hane, hfita⟩
          · exact hnofit hhasfit
          · rcases hcase with rfl | hfail
            · exact hane rfl
            · exact absurd ((parkVehicle_fst_iff fl' v a).mpr
                (IsFirstFit_all_free fl' _ a hfita)) (by rw [hfail]; simp)
        · rw [← hlot', hset]

/-- Pointwise description of a committed first fit: the proposed spots are
now assigned to the vehicle, every other spot is untouched. -/
theorem commit_spec (fl : Floor) (v : Vehicle) (l : List Nat) (k : Nat)
    (hfit : fl.IsFirstFit k l) :
    (fl.parkVehicle v l).2.floorNumber = fl.floorNumber ∧
    (fl.parkVehicle v l).2.spots.length = fl.spots.length ∧
    (∀ j, j ∉ l → (fl.parkVehicle v l).2.spots[j]? = fl.spots[j]?) ∧
    (∀ j ∈ l, ∃ s, fl.spots[j]? = some s ∧ s.isOccupied = false ∧
      (fl.parkVehicle v l).2.spots[j]? =
        some { s with parkedVehicle := v.licensePlate, isOccupied := true }) := by
  unfold Floor.IsFirstFit at hfit
  split at hfit
  · obtain ⟨j, rfl, ⟨s1, hj1, hf1⟩, ⟨s2, hj2, hf2⟩, _⟩ := hfit
    rw [parkVehicle_commit_pair fl v j s1 s2 hj1 hj2 hf1 hf2]
    dsimp only
    refine ⟨rfl, by simp, ?_, ?_⟩
    · intro j' hj'
      have h1 : j ≠ j' := fun he => hj' (he ▸ by simp)
      have h2 : j + 1 ≠ j' := fun he => hj' (he ▸ by simp)
      rw [List.getElem?_set_ne h2, List.getElem?_set_ne h1]
    · intro j' hj'
      rcases List.mem_pair.mp hj' with rfl | rfl
      · refine ⟨s1, hj1, hf1, ?_⟩
        rw [List.getElem?_set_ne (by omega), List.getElem?_set_eq_of_lt _
          (lt_length_of_getElem? hj1)]
      · refine ⟨s2, hj2, hf2, ?_⟩
        rw [List.getElem?_set_eq_of_lt _ (by simpa using lt_length_of_getElem? hj2)]
  · obtain ⟨j, rfl, ⟨s, hj, hf⟩, _⟩ := hfit
    rw [parkVehicle_commit_single fl v j s hj hf]
    dsimp only
    refine ⟨rfl, by simp, ?_, ?_⟩
    · intro j' hj'
      have h1 : j ≠ j' := fun he => hj' (he ▸ by simp)
      rw [List.getElem?_set_ne h1]
    · intro j' hj'
      rw [List.mem_singleton] at hj'
      subst hj'
      refine ⟨s, hj, hf, ?_⟩
      rw [List.getElem?_set_eq_of_lt _ (lt_length_of_getElem? hj)]

/-! ### Invariant preservation -/

theorem Inv_park (lot : ParkingLot) (v : Vehicle) (r : ParkResult)
    (lot' : ParkingLot) (hInv : Inv lot)
    (h : lot.parkVehicle v = some (r, lot')) : Inv lot' := by
  rcases parkVehicle_cases lot v r lot' h with ⟨_, hlot, _⟩ | ⟨hnone, hcase⟩
  · rwa [hlot]
  · rcases hcase with ⟨_, hlot⟩ | ⟨f, l, rfl⟩
    · rwa [hlot]
    · obtain ⟨_, fl, hfl, hfind, hlne, hfit, _, hlot'⟩ :=
        parkVehicle_success_decomp lot v f l lot' hInv h
      obtain ⟨hnum, hlen, hunch, hassign⟩ := commit_spec fl v l v.getRequiredSpots hfit
      subst hlot'
      set p := v.licensePlate with hp
      set flN := (fl.parkVehicle v l).2 with hflN
      have hflt : f < lot.floors.length := lt_length_of_getElem? hfl
      have hgetF : (lot.floors.set f flN)[f]? = some flN :=
        List.getElem?_set_eq_of_lt _ hflt
      have hgetNe : ∀ i, i ≠ f → (lot.floors.set f flN)[i]? = lot.floors[i]? :=
        fun i hi => List.getElem?_set_ne (fun he => hi he.symm)
      refine ⟨?_, ?_, ?_, ?_, ?_, ?_, ?_⟩
      · -- floors_id
        intro i fl' hfl'
        dsimp only at hfl'
        by_cases hif : i = f
        · subst hif
          rw [hgetF, Option.some.injEq] at hfl'
          subst hfl'
          rw [hnum]
          exact hInv.floors_id i fl hfl
        · rw [hgetNe i hif] at hfl'
          exact hInv.floors_id i fl' hfl'
      · -- floors_wf
        intro i fl' hfl'
        dsimp only at hfl'
        by_cases hif : i = f
        · subst hif
          rw [hgetF, Option.some.injEq] at hfl'
          subst hfl'
          intro j s hs
          by_cases hjl : j ∈ l
          · obtain ⟨t, ht, htf, hsetj⟩ := hassign j hjl
            rw [hsetj, Option.some.injEq] at hs
            subst hs
            have hwf := hInv.floors_wf i fl hfl j t ht
            refine ⟨by simpa using hwf.1, ?_⟩
            rw [hnum]
            simpa using hwf.2
          · rw [hunch j hjl] at hs
            have hwf := hInv.floors_wf i fl hfl j s hs
            exact ⟨hwf.1, by rw [hnum]; exact hwf.2⟩
        · rw [hgetNe i hif] at hfl'
          exact hInv.floors_wf i fl' hfl'
      · -- floors_small
        intro i fl' hfl'
        dsimp only at hfl'
        by_cases hif : i = f
        · subst hif
          rw [hgetF, Option.some.injEq] at hfl'
          subst hfl'
          rw [hlen]
          exact hInv.floors_small i fl hfl
        · rw [hgetNe i hif] at hfl'
          exact hInv.floors_small i fl' hfl'
      · -- free_clean
        intro i fl' j s hfl' hs hocc
        dsimp only at hfl'
        by_cases hif : i = f
        · subst hif
          rw [hgetF, Option.some.injEq] at hfl'
          subst hfl'
          by_cases hjl : j ∈ l
          · obtain ⟨t, ht, htf, hsetj⟩ := hassign j hjl
            rw [hsetj, Option.some.injEq] at hs
            subst hs
            simp at hocc
          · rw [hunch j hjl] at hs
            exact hInv.free_clean i fl j s hfl hs hocc
        · rw [hgetNe i hif] at hfl'
          exact hInv.free_clean i fl' j s hfl' hs hocc
      · -- keys_eq
        dsimp only
        rw [List.map_cons, List.map_cons, hInv.keys_eq]
      · -- occ_fwd
        intro i fl' j s hfl' hs hocc
        dsimp only at hfl' ⊢
        by_cases hif : i = f
        · subst hif
          rw [hgetF, Option.some.injEq] at hfl'
          subst hfl'
          by_cases hjl : j ∈ l
          · obtain ⟨t, ht, htf, hsetj⟩ := hassign j hjl
            rw [hsetj, Option.some.injEq] at hs
            subst hs
            refine ⟨l, ?_, hjl⟩
            rw [lookupPlate_cons]
            simp
          · rw [hunch j hjl] at hs
            obtain ⟨I, hI, hjI⟩ := hInv.occ_fwd i fl j s hfl hs hocc
            have hqp : s.parkedVehicle ≠ p := by
              intro hqp
              rw [hqp, hnone] at hI
              exact Option.noConfusion hI
            refine ⟨I, ?_, hjI⟩
            rw [lookupPlate_cons, if_neg hqp, hI]
        · rw [hgetNe i hif] at hfl'
          obtain ⟨I, hI, hjI⟩ := hInv.occ_fwd i fl' j s hfl' hs hocc
          have hqp : s.parkedVehicle ≠ p := by
            intro hqp
            rw [hqp, hnone] at hI
            exact Option.noConfusion hI
          refine ⟨I, ?_, hjI⟩
          rw [lookupPlate_cons, if_neg hqp, hI]
      · -- occ_bwd
        intro q fi I hq
        dsimp only at hq ⊢
        rw [lookupPlate_cons] at hq
        by_cases hqp : q = p
        · rw [if_pos hqp, Option.some.injEq, Prod.mk.injEq] at hq
          obtain ⟨hfi, hI⟩ := hq
          subst hfi
          subst hI
          refine ⟨flN, hgetF, ?_⟩
          intro j hjl
          obtain ⟨t, ht, htf, hsetj⟩ := hassign j hjl
          exact ⟨_, hsetj, rfl, hqp.symm⟩
        · rw [if_neg hqp] at hq
          obtain ⟨fl', hfl', hall⟩ := hInv.occ_bwd q fi I hq
          by_cases hif : fi = f
          · subst hif
            rw [hfl, Option.some.injEq] at hfl'
            subst hfl'
            refine ⟨flN, hgetF, ?_⟩
            intro j hjI
            obtain ⟨s, hs, hocc, hplate⟩ := hall j hjI
            have hjl : j ∉ l := by
              intro hjl
              obtain ⟨t, ht, htf, _⟩ := hassign j hjl
              rw [ht, Option.some.injEq] at hs
              subst hs
              rw [htf] at hocc
              exact Bool.noConfusion hocc
            exact ⟨s, by rw [hunch j hjl]; exact hs, hocc, hplate⟩
          · exact ⟨fl', by rw [hgetNe fi hif]; exact hfl', hall⟩

/-! ### `ParkingLot::removeVehicle` -/

/-- Exit-path analysis of `ParkingLot::removeVehicle`. -/
theorem removeVehicle_cases (lot : ParkingLot) (p : String) (r : RemoveResult)
    (lot' : ParkingLot) (h : lot.removeVehicle p = some (r, lot')) :
    (r = RemoveResult.notFound ∧ lot' = lot ∧
      lookupPlate p lot.vehicleLocations = none) ∨
    ∃ f I fl, lookupPlate p lot.vehicleLocations = some (f, I) ∧
      lot.floors[f]? = some fl ∧
      ((r = RemoveResult.removed f ∧ (fl.removeVehicle p).1 = true ∧
        lot' = ⟨lot.vehicleLocations.filter (fun kv => kv.1 != p),
                lot.vehiclesMap.filter (fun kv => kv.1 != p),
                lot.floors.set f (fl.removeVehicle p).2⟩) ∨
       (r = RemoveResult.silentFail ∧ (fl.removeVehicle p).1 = false ∧
        lot' = { lot with floors := lot.floors.set f (fl.removeVehicle p).2 })) := by
  rw [ParkingLot.removeVehicle] at h
  cases hloc : lookupPlate p lot.vehicleLocations with
  | none =>
    rw [hloc] at h
    simp only [Option.some.injEq, Prod.mk.injEq] at h
    exact Or.inl ⟨h.1.symm, h.2.symm, rfl⟩
  | some fI =>
    obtain ⟨f, I⟩ := fI
    rw [hloc] at h
    simp only at h
    cases hfl : lot.floors[f]? with
    | none => rw [hfl] at h; exact Option.noConfusion h
    | some fl =>
      rw [hfl] at h
      simp only at h
      cases hrem : fl.removeVehicle p with
      | mk ok fl2 =>
        rw [hrem] at h
        cases ok with
        | true =>
          simp only [if_true, Option.some.injEq, Prod.mk.injEq] at h
          refine Or.inr ⟨f, I, fl, rfl, hfl,
            Or.inl ⟨h.1.symm, by rw [hrem], ?_⟩⟩
          rw [← h.2, hrem]
        | false =>
          simp only [Bool.false_eq_true, if_false, Option.some.injEq,
            Prod.mk.injEq] at h
          refine Or.inr ⟨f, I, fl, rfl, hfl,
            Or.inr ⟨h.1.symm, by rw [hrem], ?_⟩⟩
          rw [← h.2, hrem]

/-- When the recorded floor releases nothing, the whole state is unchanged. -/
theorem remove_silent_state (lot : ParkingLot) (p : String) (f : Nat) (fl : Floor)
    (hfl : lot.floors[f]? = some fl) (hfalse : (fl.removeVehicle p).1 = false) :
    ({ lot with floors := lot.floors.set f (fl.removeVehicle p).2 } : ParkingLot)
      = lot := by
  rw [floorRemove_id_of_fst_false fl p hfalse, set_self_of_getElem? lot.floors f fl hfl]

theorem map_fst_filter_ne {α : Type} (p : String) (l : List (String × α)) :
    (l.filter (fun kv => kv.1 != p)).map Prod.fst =
      (l.map Prod.fst).filter (fun k => k != p) := by
  induction l with
  | nil => rfl
  | cons kv rest ih =>
    obtain ⟨q, v⟩ := kv
    by_cases hq : (q != p) = true
    · simp only [List.filter_cons, hq, List.map_cons, if_true, ih]
    · simp only [List.filter_cons, List.map_cons]
      rw [if_neg hq, if_neg hq, ih]

theorem Inv_remove (lot : ParkingLot) (p : String) (r : RemoveResult)
    (lot' : ParkingLot) (hInv : Inv lot) (h : lot.removeVehicle p = some (r, lot')) :
    Inv lot' := by
  rcases removeVehicle_cases lot p r lot' h with ⟨_, hlot, _⟩ |
    ⟨f, I, fl, hloc, hfl, hcase⟩
  · rwa [hlot]
  · rcases hcase with ⟨_, htrue, hlot'⟩ | ⟨_, hfalse, hlot'⟩
    swap
    · rw [hlot', remove_silent_state lot p f fl hfl hfalse]
      exact hInv
    · subst hlot'
      set flR := (fl.removeVehicle p).2 with hflR
      have hflt : f < lot.floors.length := lt_length_of_getElem? hfl
      have hgetF : (lot.floors.set f flR)[f]? = some flR :=
        List.getElem?_set_eq_of_lt _ hflt
      have hgetNe : ∀ i, i ≠ f → (lot.floors.set f flR)[i]? = lot.floors[i]? :=
        fun i hi => List.getElem?_set_ne (fun he => hi he.symm)
      have hpoint : ∀ j, flR.spots[j]? = (fl.spots[j]?).map
          (fun (s : ParkingSpot) =>
            if s.isOccupied && s.parkedVehicle == p then
              { s with parkedVehicle := "", isOccupied := false } else s) :=
        floorRemove_getElem fl p
      refine ⟨?_, ?_, ?_, ?_, ?_, ?_, ?_⟩
      · -- floors_id
        intro i fl' hfl'
        dsimp only at hfl'
        by_cases hif : i = f
        · subst hif
          rw [hgetF, Option.some.injEq] at hfl'
          subst hfl'
          rw [floorRemove_floorNumber]
          exact hInv.floors_id i fl hfl
        · rw [hgetNe i hif] at hfl'
          exact hInv.floors_id i fl' hfl'
      · -- floors_wf
        intro i fl' hfl'
        dsimp only at hfl'
        by_cases hif : i = f
        · subst hif
          rw [hgetF, Option.some.injEq] at hfl'
          subst hfl'
          intro j s hs
          rw [hpoint j] at hs
          cases ht : fl.spots[j]? with
          | none => rw [ht] at hs; exact Option.noConfusion hs
          | some t =>
            rw [ht, Option.map_some', Option.some.injEq] at hs
            subst hs
            have hwf := hInv.floors_wf i fl hfl j t ht
            by_cases hc : (t.isOccupied && t.parkedVehicle == p) = true
            · rw [if_pos hc]
              exact ⟨by simpa using hwf.1,
                by rw [floorRemove_floorNumber]; simpa using hwf.2⟩
            · rw [if_neg hc]
              exact ⟨hwf.1, by rw [floorRemove_floorNumber]; exact hwf.2⟩
        · rw [hgetNe i hif] at hfl'
          exact hInv.floors_wf i fl' hfl'
      · -- floors_small
        intro i fl' hfl'
        dsimp only at hfl'
        by_cases hif : i = f
        · subst hif
          rw [hgetF, Option.some.injEq] at hfl'
          subst hfl'
          rw [floorRemove_length]
          exact hInv.floors_small i fl hfl
        · rw [hgetNe i hif] at hfl'
          exact hInv.floors_small i fl' hfl'
      · -- free_clean
        intro i fl' j s hfl' hs hocc
        dsimp only at hfl'
        by_cases hif : i = f
        · subst hif
          rw [hgetF, Option.some.injEq] at hfl'
          subst hfl'
          rw [hpoint j] at hs
          cases ht : fl.spots[j]? with
          | none => rw [ht] at hs; exact Option.noConfusion hs
          | some t =>
            rw [ht, Option.map_some', Option.some.injEq] at hs
            subst hs
            by_cases hc : (t.isOccupied && t.parkedVehicle == p) = true
            · rw [if_pos hc]
            · rw [if_neg hc] at hocc ⊢
              exact hInv.free_clean i fl j t hfl ht hocc
        · rw [hgetNe i hif] at hfl'
          exact hInv.free_clean i fl' j s hfl' hs hocc
      · -- keys_eq
        dsimp only
        rw [map_fst_filter_ne, map_fst_filter_ne, hInv.keys_eq]
      · -- occ_fwd
        intro i fl' j s hfl' hs hocc
        dsimp only at hfl' ⊢
        by_cases hif : i = f
        · subst hif
          rw [hgetF, Option.some.injEq] at hfl'
          subst hfl'
          rw [hpoint j] at hs
          cases ht : fl.spots[j]? with
          | none => rw [ht] at hs; exact Option.noConfusion hs
          | some t =>
            rw [ht, Option.map_some', Option.some.injEq] at hs
            subst hs
            by_cases hc : (t.isOccupied && t.parkedVehicle == p) = true
            · rw [if_pos hc] at hocc
              exact absurd hocc (by simp)
            · rw [if_neg hc] at hocc ⊢
              obtain ⟨I', hI', hjI'⟩ := hInv.occ_fwd i fl j t hfl ht hocc
              have hqp : t.parkedVehicle ≠ p := by
                intro he
                apply hc
                rw [hocc, he]
                simp
              refine ⟨I', ?_, hjI'⟩
              rw [lookupPlate_filter_ne hqp, hI']
        · rw [hgetNe i hif] at hfl'
          obtain ⟨I', hI', hjI'⟩ := hInv.occ_fwd i fl' j s hfl' hs hocc
          have hqp : s.parkedVehicle ≠ p := by
            intro he
            rw [he, hloc, Option.some.injEq, Prod.mk.injEq] at hI'
            exact hif hI'.1.symm
          refine ⟨I', ?_, hjI'⟩
          rw [lookupPlate_filter_ne hqp, hI']
      · -- occ_bwd
        intro q fi I' hq
        dsimp only at hq ⊢
        have hqp : q ≠ p := by
          intro he
          rw [he, lookupPlate_filter_self] at hq
          exact Option.noConfusion hq
        rw [lookupPlate_filter_ne hqp] at hq
        obtain ⟨fl', hfl', hall⟩ := hInv.occ_bwd q fi I' hq
        by_cases hif : fi = f
        · subst hif
          rw [hfl, Option.some.injEq] at hfl'
          subst hfl'
          refine ⟨flR, hgetF, ?_⟩
          intro j hjI'
          obtain ⟨s, hs, hocc, hplate⟩ := hall j hjI'
          refine ⟨s, ?_, hocc, hplate⟩
          rw [hpoint j, hs, Option.map_some']
          rw [if_neg (by rw [hplate]; simp [hqp])]
        · exact ⟨fl', by rw [hgetNe fi hif]; exact hfl', hall⟩

/-- The invariant holds at construction. -/
theorem Inv_mkNew (numFloors spotsPerFloor : Nat) (hsp : spotsPerFloor < sizeTCard) :
    Inv (ParkingLot.mkNew numFloors spotsPerFloor) := by
  have hfloors : ∀ (i : Nat) (fl : Floor),
      (ParkingLot.mkNew numFloors spotsPerFloor).floors[i]? = some fl →
      fl = Floor.mkNew i spotsPerFloor := by
    intro i fl hfl
    dsimp only [ParkingLot.mkNew] at hfl
    rw [List.getElem?_map] at hfl
    have hlt : i < numFloors := by
      cases hr : (List.range numFloors)[i]? with
      | none => rw [hr] at hfl; exact Option.noConfusion hfl
      | some m => simpa using lt_length_of_getElem? hr
    rw [List.getElem?_range hlt, Option.map_some', Option.some.injEq] at hfl
    exact hfl.symm
  have hspots : ∀ (i j : Nat) (s : ParkingSpot),
      (Floor.mkNew i spotsPerFloor).spots[j]? = some s →
      s = ParkingSpot.mkNew i j := by
    intro i j s hs
    dsimp only [Floor.mkNew] at hs
    rw [List.getElem?_map] at hs
    have hlt : j < spotsPerFloor := by
      cases hr : (List.range spotsPerFloor)[j]? with
      | none => rw [hr] at hs; exact Option.noConfusion hs
      | some m => simpa using lt_length_of_getElem? hr
    rw [List.getElem?_range hlt, Option.map_some', Option.some.injEq] at hs
    exact hs.symm
  refine ⟨?_, ?_, ?_, ?_, rfl, ?_, ?_⟩
  · intro i fl hfl
    rw [hfloors i fl hfl]
    rfl
  · intro i fl hfl
    rw [hfloors i fl hfl]
    intro j s hs
    rw [hspots i j s hs]
    exact ⟨rfl, rfl⟩
  · intro i fl hfl
    rw [hfloors i fl hfl]
    dsimp only [Floor.mkNew]
    simpa using hsp
  · intro i fl j s hfl hs _
    rw [hfloors i fl hfl] at hs
    rw [hspots i j s hs]
    rfl
  · intro i fl j s hfl hs hocc
    rw [hfloors i fl hfl] at hs
    rw [hspots i j s hs] at hocc
    exact Bool.noConfusion hocc
  · intro q fi I hq
    exact Option.noConfusion hq

theorem Inv_applyOp (lot : ParkingLot) (op : Op) (lot' : ParkingLot) (hInv : Inv lot)
    (h : lot.applyOp op = some lot') : Inv lot' := by
  cases op with
  | park v =>
    dsimp only [ParkingLot.applyOp] at h
    cases hp : lot.parkVehicle v with
    | none => rw [hp] at h; exact Option.noConfusion h
    | some pr =>
      obtain ⟨r, lot2⟩ := pr
      rw [hp] at h
      simp only [Option.map_some', Option.some.injEq] at h
      subst h
      exact Inv_park lot v r lot2 hInv hp
  | remove p =>
    dsimp only [ParkingLot.applyOp] at h
    cases hp : lot.removeVehicle p with
    | none => rw [hp] at h; exact Option.noConfusion h
    | some pr =>
      obtain ⟨r, lot2⟩ := pr
      rw [hp] at h
      simp only [Option.map_some', Option.some.injEq] at h
      subst h
      exact Inv_remove lot p r lot2 hInv hp
  | availableSpots =>
    dsimp only [ParkingLot.applyOp, ParkingLot.getAvailableSpotsPerFloor] at h
    rw [Option.some.injEq] at h
    rwa [← h]
  | isFullQuery =>
    dsimp only [ParkingLot.applyOp, ParkingLot.isFull] at h
    rw [Option.some.injEq] at h
    rwa [← h]
  | findQuery p =>
    dsimp only [ParkingLot.applyOp, ParkingLot.findVehicle] at h
    rw [Option.some.injEq] at h
    rwa [← h]

/-- Every reachable state satisfies the invariant. -/
theorem Reachable_inv (lot : ParkingLot) (h : Reachable lot) : Inv lot := by
  induction h with
  | init nf sp hf hs =>
    have h31 : (2 : Nat) ^ 31 = 2147483648 := by norm_num
    rw [h31] at hs
    exact Inv_mkNew nf sp (by rw [sizeTCard_eq]; omega)
  | step lot lot' op hre happ ih => exact Inv_applyOp lot op lot' ih happ

/-! ### Claim theorems -/

/-- C1: a successful `park` returns the floor-ascending, index-ascending
first fit — every floor before the chosen one has no fit for the vehicle's
required count, and on the chosen floor the returned indices are the fit with
the smallest starting index, consecutive (`[j, j + 1]`) for a Truck. -/
theorem C1_park_first_fit (lot : ParkingLot) (v : Vehicle) (f : Nat)
    (l : List Nat) (lot' : ParkingLot) (hInv : Inv lot)
    (hpark : lot.parkVehicle v = some (ParkResult.parked f l, lot')) :
    ∃ fl, lot.floors[f]? = some fl ∧ fl.floorNumber = f ∧
      fl.IsFirstFit v.getRequiredSpots l ∧
      ∀ (f' : Nat) (fl' : Floor), f' < f → lot.floors[f']? = some fl' →
        ¬ fl'.HasFit v.getRequiredSpots := by
  obtain ⟨_, fl, hfl, _, _, hfit, hearlier, _⟩ :=
    parkVehicle_success_decomp lot v f l lot' hInv hpark
  exact ⟨fl, hfl, hInv.floors_id f fl hfl, hfit, hearlier⟩

/-- Witness for C1 at `Lot(2, 3)` with a Truck: the hypotheses hold at the
concrete input and the first-fit description holds of the returned
`(0, [0, 1])`. -/
theorem C1_witness :
    Inv (ParkingLot.mkNew 2 3) ∧
    (ParkingLot.mkNew 2 3).parkVehicle truckT1 =
      some (ParkResult.parked 0 [0, 1], lotT1Parked) ∧
    (∃ fl, (ParkingLot.mkNew 2 3).floors[0]? = some fl ∧ fl.floorNumber = 0 ∧
      fl.IsFirstFit truckT1.getRequiredSpots [0, 1] ∧
      ∀ (f' : Nat) (fl' : Floor), f' < 0 →
        (ParkingLot.mkNew 2 3).floors[f']? = some fl' →
        ¬ fl'.HasFit truckT1.getRequiredSpots) :=
  have hInv : Inv (ParkingLot.mkNew 2 3) :=
    Inv_mkNew 2 3 (by rw [sizeTCard_eq]; omega)
  ⟨hInv, by decide,
    C1_park_first_fit (ParkingLot.mkNew 2 3) truckT1 0 [0, 1] lotT1Parked hInv
      (by decide)⟩

/-- C2: in every reachable lot state, a spot of floor `f` is occupied by
plate `p` exactly when `location_index[p]` exists, records floor `f`, and
lists that spot's index. -/
theorem C2_occupied_iff_location (lot : ParkingLot) (h : Reachable lot)
    (p : String) (f j : Nat) :
    (∃ fl, lot.floors[f]? = some fl ∧ fl.OccupiedAtBy j p) ↔
    (∃ I, lookupPlate p lot.vehicleLocations = some (f, I) ∧ j ∈ I) := by
  have hInv := Reachable_inv lot h
  constructor
  · rintro ⟨fl, hfl, s, hs, hocc, hplate⟩
    obtain ⟨I, hI, hj⟩ := hInv.occ_fwd f fl j s hfl hs hocc
    rw [hplate] at hI
    exact ⟨I, hI, hj⟩
  · rintro ⟨I, hI, hj⟩
    obtain ⟨fl, hfl, hall⟩ := hInv.occ_bwd p f I hI
    exact ⟨fl, hfl, hall j hj⟩

/-- Witness for C2 at the freshly built `Lot(1, 1)`. -/
theorem C2_witness :
    Reachable (ParkingLot.mkNew 1 1) ∧
    ((∃ fl, (ParkingLot.mkNew 1 1).floors[0]? = some fl ∧ fl.OccupiedAtBy 0 "A") ↔
      (∃ I, lookupPlate "A" (ParkingLot.mkNew 1 1).vehicleLocations = some (0, I) ∧
        0 ∈ I)) :=
  have hre : Reachable (ParkingLot.mkNew 1 1) :=
    Reachable.init 1 1 (by norm_num) (by norm_num)
  ⟨hre, C2_occupied_iff_location (ParkingLot.mkNew 1 1) hre "A" 0 0⟩

/-- C3: a failed `park` (duplicate plate or full lot) mutates nothing — the
state after the call is the state before it — and the floor-level commit
returns `(false, unchanged floor)` whenever any index re-check fails. -/
theorem C3_park_failure_frame :
    (∀ (lot : ParkingLot) (v : Vehicle) (r : ParkResult) (lot' : ParkingLot),
      lot.parkVehicle v = some (r, lot') →
      r = ParkResult.alreadyParked ∨ r = ParkResult.full → lot' = lot) ∧
    (∀ (fl : Floor) (v : Vehicle) (l : List Nat),
      ¬(∀ idx ∈ l, spotsFreeAt fl.spots idx) → fl.parkVehicle v l = (false, fl)) := by
  constructor
  · intro lot v r lot' h hr
    rcases parkVehicle_cases lot v r lot' h with ⟨_, hlot, _⟩ | ⟨_, hcase⟩
    · exact hlot
    · rcases hcase with ⟨_, hlot⟩ | ⟨f, l, rfl⟩
      · exact hlot
      · rcases hr with h1 | h1 <;> exact ParkResult.noConfusion h1
  · intro fl v l hfail
    apply parkVehicle_fail_frame
    cases hb : (fl.parkVehicle v l).1
    · rfl
    · exact absurd ((parkVehicle_fst_iff fl v l).mp hb) hfail

/-- Witness for C3: a duplicate park leaves the parked lot untouched, and a
commit on an occupied index leaves the floor untouched. -/
theorem C3_witness :
    lotXParked.parkVehicle bikeX = some (ParkResult.alreadyParked, lotXParked) ∧
    lotXParked = lotXParked ∧
    floorTT.parkVehicle carA [0] = (false, floorTT) := by
  refine ⟨by decide, ?_, ?_⟩
  · exact C3_park_failure_frame.1 lotXParked bikeX ParkResult.alreadyParked
      lotXParked (by decide) (Or.inl rfl)
  · apply C3_park_failure_frame.2
    intro hall
    obtain ⟨s, hs, hocc⟩ := hall 0 (by simp)
    have h0 : floorTT.spots[0]? = some ⟨0, 0, true, "T"⟩ := by decide
    rw [h0, Option.some.injEq] at hs
    subst hs
    exact absurd hocc (by decide)

/-- C4 (code bug): on a floor built with zero spots, the Truck branch of
`Floor::findAvailableSpots` underflows its unsigned loop bound
(`spots.size() - 1` wraps to `SIZE_MAX`) and its first iteration reads
`spots[0]` out of range — undefined behaviour, modelled by `none` — instead
of returning the empty list; the single-spot branch is safe on the same
floor. -/
theorem C4_find_zero_spots_ub :
    emptyFloor.findAvailableSpots truckT1 = none ∧
    emptyFloor.findAvailableSpots carA = some [] := by decide

/-- C5 counterexample: at a corrupted state whose `location_index` names a
floor that releases zero spots, `remove` takes the silent exit path — it
returns the bare C++ `false`, the very value `NotFound` returns, prints
nothing, and leaves the stale index entry in place.  No distinct `Corrupted`
error is surfaced. -/
theorem C5_counterexample :
    corruptLot.removeVehicle "P" = some (RemoveResult.silentFail, corruptLot) ∧
    RemoveResult.silentFail.toBool = RemoveResult.notFound.toBool ∧
    lookupPlate "P" corruptLot.vehicleLocations = some (0, [0]) := by decide

/-- C5 (amended): whenever `remove` finds the plate but the recorded floor's
release reports zero spots, the code returns `false` — indistinguishable, as
a return value, from `NotFound` — leaves the entire state unchanged, and
keeps the stale `location_index` entry; no distinct `Corrupted` error
exists. -/
theorem C5_remove_zero_release_silent (lot : ParkingLot) (p : String) (f : Nat)
    (I : List Nat) (fl : Floor)
    (hloc : lookupPlate p lot.vehicleLocations = some (f, I))
    (hfl : lot.floors[f]? = some fl)
    (hzero : (fl.removeVehicle p).1 = false) :
    lot.removeVehicle p = some (RemoveResult.silentFail, lot) ∧
    RemoveResult.silentFail.toBool = RemoveResult.notFound.toBool ∧
    lookupPlate p lot.vehicleLocations = some (f, I) := by
  refine ⟨?_, rfl, hloc⟩
  have hfrm : fl.removeVehicle p = (false, fl) := by
    have h2 := floorRemove_id_of_fst_false fl p hzero
    calc fl.removeVehicle p
        = ((fl.removeVehicle p).1, (fl.removeVehicle p).2) := rfl
      _ = (false, fl) := by rw [hzero, h2]
  rw [ParkingLot.removeVehicle, hloc]
  simp only
  rw [hfl]
  simp only
  rw [hfrm]
  simp only
  rw [if_neg (by simp)]
  rw [set_self_of_getElem? lot.floors f fl hfl]

/-- Witness for C5 at the concrete corrupted state. -/
theorem C5_witness :
    lookupPlate "P" corruptLot.vehicleLocations = some (0, [0]) ∧
    corruptLot.floors[0]? = some ⟨0, [⟨0, 0, false, ""⟩]⟩ ∧
    ((⟨0, [⟨0, 0, false, ""⟩]⟩ : Floor).removeVehicle "P").1 = false ∧
    (corruptLot.removeVehicle "P" = some (RemoveResult.silentFail, corruptLot) ∧
     RemoveResult.silentFail.toBool = RemoveResult.notFound.toBool ∧
     lookupPlate "P" corruptLot.vehicleLocations = some (0, [0])) :=
  ⟨by decide, by decide, by decide,
    C5_remove_zero_release_silent corruptLot "P" 0 [0] ⟨0, [⟨0, 0, false, ""⟩]⟩
      (by decide) (by decide) (by decide)⟩

/-- C6: `park` takes the duplicate-plate exit exactly when the plate is
already in `location_index`; in that case the whole state — in particular
every per-floor free count — is unchanged; scenario S5 (`Lot(1, 2)`,
`park("X", Car)`, `park("X", Bike)`, `available_per_floor() = [1]`) is
reproduced literally. -/
theorem C6_park_duplicate (lot : ParkingLot) (v : Vehicle) :
    (((lot.parkVehicle v).map Prod.fst = some ParkResult.alreadyParked) ↔
      (lookupPlate v.licensePlate lot.vehicleLocations).isSome = true) ∧
    (∀ lot', lot.parkVehicle v = some (ParkResult.alreadyParked, lot') →
      (lot'.getAvailableSpotsPerFloor).1 = (lot.getAvailableSpotsPerFloor).1) ∧
    ((ParkingLot.mkNew 1 2).parkVehicle carX =
      some (ParkResult.parked 0 [0], lotXParked) ∧
     lotXParked.parkVehicle bikeX = some (ParkResult.alreadyParked, lotXParked) ∧
     (lotXParked.getAvailableSpotsPerFloor).1 = [1]) := by
  refine ⟨?_, ?_, by decide, by decide, by decide⟩
  · constructor
    · intro h
      cases hp : lot.parkVehicle v with
      | none => rw [hp] at h; exact Option.noConfusion h
      | some pr =>
        obtain ⟨r, lot2⟩ := pr
        rw [hp] at h
        simp only [Option.map_some', Option.some.injEq] at h
        subst h
        rcases parkVehicle_cases lot v ParkResult.alreadyParked lot2 hp with
          ⟨_, _, hsome⟩ | ⟨_, hcase⟩
        · exact hsome
        · rcases hcase with ⟨h1, _⟩ | ⟨f, l, h1⟩ <;> exact ParkResult.noConfusion h1
    · intro h
      rw [ParkingLot.parkVehicle, if_pos h]
      rfl
  · intro lot' h
    rcases parkVehicle_cases lot v ParkResult.alreadyParked lot' h with
      ⟨_, hlot, _⟩ | ⟨_, hcase⟩
    · rw [hlot]
    · rcases hcase with ⟨h1, _⟩ | ⟨f, l, h1⟩ <;> exact ParkResult.noConfusion h1

/-- Witness for C6 at the parked `Lot(1, 2)`. -/
theorem C6_witness :
    lotXParked.parkVehicle bikeX = some (ParkResult.alreadyParked, lotXParked) ∧
    ((lotXParked.parkVehicle bikeX).map Prod.fst =
        some ParkResult.alreadyParked ↔
      (lookupPlate bikeX.licensePlate lotXParked.vehicleLocations).isSome = true) ∧
    (lotXParked.getAvailableSpotsPerFloor).1 =
      (lotXParked.getAvailableSpotsPerFloor).1 :=
  ⟨by decide, (C6_park_duplicate lotXParked bikeX).1,
    (C6_park_duplicate lotXParked bikeX).2.1 lotXParked (by decide)⟩

/-- C7 counterexample: on a floor whose two spots are both occupied by the
truck plate `"T"`, the release frees two spots, yet the C++ return value is
the boolean `true` (numerically `1`, not the released count `2`):
`Floor::removeVehicle` does not return the number of spots it released. -/
theorem C7_counterexample :
    (floorTT.spots.countP (fun s => s.isOccupied && s.parkedVehicle == "T")) = 2 ∧
    ((floorTT.removeVehicle "T").2.spots.countP (fun s => !s.isOccupied)) = 2 ∧
    (floorTT.removeVehicle "T").1.toNat = 1 ∧ (1 : Nat) ≠ 2 := by decide

/-- C7 (amended): `Floor::removeVehicle` frees exactly the spots occupied by
the plate (clearing their plate strings, touching nothing else) and returns a
boolean — `true` iff at least one spot was released, `false` exactly when the
plate occupied no spot on the floor — not a count of released spots. -/
theorem C7_floor_remove_spec (fl : Floor) (p : String) :
    ((fl.removeVehicle p).1 = false ↔
      ∀ s ∈ fl.spots, ¬(s.isOccupied = true ∧ s.parkedVehicle = p)) ∧
    ∀ j : Nat, (fl.removeVehicle p).2.spots[j]? = (fl.spots[j]?).map
      (fun (s : ParkingSpot) =>
        if s.isOccupied && s.parkedVehicle == p then
          { s with parkedVehicle := "", isOccupied := false } else s) := by
  constructor
  · constructor
    · intro hfalse s hs hcon
      have hb := (floorRemove_fst_iff fl p).mpr ⟨s, hs, hcon⟩
      rw [hfalse] at hb
      exact Bool.noConfusion hb
    · intro hall
      cases hb : (fl.removeVehicle p).1
      · rfl
      · obtain ⟨s, hs, hcon⟩ := (floorRemove_fst_iff fl p).mp hb
        exact absurd hcon (hall s hs)
  · exact floorRemove_getElem fl p

/-- Witness for C7 at the concrete two-spot truck floor. -/
theorem C7_witness :
    (((floorTT.removeVehicle "T").1 = false ↔
      ∀ s ∈ floorTT.spots, ¬(s.isOccupied = true ∧ s.parkedVehicle = "T")) ∧
    ∀ j : Nat, (floorTT.removeVehicle "T").2.spots[j]? = (floorTT.spots[j]?).map
      (fun (s : ParkingSpot) =>
        if s.isOccupied && s.parkedVehicle == "T" then
          { s with parkedVehicle := "", isOccupied := false } else s)) :=
  C7_floor_remove_spec floorTT "T"

/-- C10: the query operations `available_per_floor`, `is_full` and `find`
modify no state: the lot they return (and the state `applyOp` threads) is the
input lot itself — the C++ methods perform no writes. -/
theorem C10_queries_no_mutation (lot : ParkingLot) (p : String) :
    (lot.getAvailableSpotsPerFloor).2 = lot ∧ (lot.isFull).2 = lot ∧
    (lot.findVehicle p).2 = lot ∧
    lot.applyOp Op.availableSpots = some lot ∧
    lot.applyOp Op.isFullQuery = some lot ∧
    lot.applyOp (Op.findQuery p) = some lot :=
  ⟨rfl, rfl, rfl, rfl, rfl, rfl⟩

theorem Floor_eq_of_fields {a b : Floor} (h1 : a.floorNumber = b.floorNumber)
    (h2 : a.spots = b.spots) : a = b := by
  cases a
  cases b
  simp_all

/-- C8: from any invariant-satisfying (reachable) state, a successful `park`
followed by `remove` of the same plate restores the exact prior state; in
particular every per-floor free count is back to its prior value. -/
theorem C8_park_remove_roundtrip (lot : ParkingLot) (v : Vehicle) (f : Nat)
    (l : List Nat) (lot₁ lot₂ : ParkingLot) (r : RemoveResult) (hInv : Inv lot)
    (hpark : lot.parkVehicle v = some (ParkResult.parked f l, lot₁))
    (hrem : lot₁.removeVehicle v.licensePlate = some (r, lot₂)) :
    r = RemoveResult.removed f ∧ lot₂ = lot ∧
    (lot₂.getAvailableSpotsPerFloor).1 = (lot.getAvailableSpotsPerFloor).1 := by
  obtain ⟨hnone, fl, hfl, hfind, hlne, hfit, _, hlot₁⟩ :=
    parkVehicle_success_decomp lot v f l lot₁ hInv hpark
  obtain ⟨hnum, hlen, hunch, hassign⟩ := commit_spec fl v l v.getRequiredSpots hfit
  set p := v.licensePlate with hp
  set flN := (fl.parkVehicle v l).2 with hflN
  have hflt : f < lot.floors.length := lt_length_of_getElem? hfl
  subst hlot₁
  have hlook1 : lookupPlate p ((p, f, l) :: lot.vehicleLocations) = some (f, l) := by
    rw [lookupPlate_cons, if_pos rfl]
  have hfn1 : (lot.floors.set f flN)[f]? = some flN :=
    List.getElem?_set_eq_of_lt _ hflt
  obtain ⟨j0, hj0⟩ : ∃ j, j ∈ l := by
    cases l with
    | nil => exact absurd rfl hlne
    | cons a t => exact ⟨a, by simp⟩
  obtain ⟨t0, ht0, ht0f, hset0⟩ := hassign j0 hj0
  have hfst : (flN.removeVehicle p).1 = true := by
    rw [floorRemove_fst_iff]
    exact ⟨_, List.getElem?_mem hset0, rfl, rfl⟩
  have hflR : (flN.removeVehicle p).2 = fl := by
    apply Floor_eq_of_fields
    · rw [floorRemove_floorNumber, hnum]
    · apply List.ext_getElem?
      intro j
      rw [floorRemove_getElem]
      by_cases hjl : j ∈ l
      · obtain ⟨t, ht, htf, hsetj⟩ := hassign j hjl
        rw [hsetj, Option.map_some']
        rw [if_pos (by simp)]
        have htclean : t.parkedVehicle = "" := hInv.free_clean f fl j t hfl ht htf
        rw [ht]
        congr 1
        cases t with
        | mk a b c d =>
          simp only at htf htclean
          rw [htf] at *
          simp [htclean]
      · rw [hunch j hjl]
        cases ho : fl.spots[j]? with
        | none => rfl
        | some t =>
          rw [Option.map_some']
          by_cases hc : (t.isOccupied && t.parkedVehicle == p) = true
          · exfalso
            have hcc := Bool.and_eq_true _ _ |>.mp hc
            obtain ⟨I', hI', _⟩ := hInv.occ_fwd f fl j t hfl ho hcc.1
            have hpl : t.parkedVehicle = p := by simpa using hcc.2
            rw [hpl, hnone] at hI'
            exact Option.noConfusion hI'
          · rw [if_neg hc]
  rw [ParkingLot.removeVehicle] at hrem
  dsimp only at hrem
  rw [hlook1] at hrem
  simp only at hrem
  rw [hfn1] at hrem
  simp only at hrem
  have hpair : flN.removeVehicle p = (true, fl) := by
    calc flN.removeVehicle p
        = ((flN.removeVehicle p).1, (flN.removeVehicle p).2) := rfl
      _ = (true, fl) := by rw [hfst, hflR]
  rw [hpair] at hrem
  simp only [if_true, Option.some.injEq, Prod.mk.injEq] at hrem
  obtain ⟨hr, hlot₂⟩ := hrem
  have hlocs : ((p, f, l) :: lot.vehicleLocations).filter (fun kv => kv.1 != p)
      = lot.vehicleLocations := by
    rw [List.filter_cons, if_neg (by simp)]
    exact filter_eq_self_of_lookup_none p lot.vehicleLocations hnone
  have hpmem : lookupPlate p lot.vehiclesMap = none := by
    rw [lookupPlate_eq_none_iff] at hnone ⊢
    intro kv hkv hkvp
    have hmem : kv.1 ∈ lot.vehiclesMap.map Prod.fst := List.mem_map_of_mem _ hkv
    rw [← hInv.keys_eq] at hmem
    obtain ⟨kv', hkv', hfst'⟩ := List.mem_map.mp hmem
    exact hnone kv' hkv' (by rw [hfst', hkvp])
  have hvmap : ((p, v) :: lot.vehiclesMap).filter (fun kv => kv.1 != p)
      = lot.vehiclesMap := by
    rw [List.filter_cons, if_neg (by simp)]
    exact filter_eq_self_of_lookup_none p lot.vehiclesMap hpmem
  have hfloors2 : (lot.floors.set f flN).set f fl = lot.floors := by
    rw [List.set_set]
    exact set_self_of_getElem? lot.floors f fl hfl
  have hlot2 : lot₂ = lot := by
    rw [← hlot₂, hlocs, hvmap, hfloors2]
  exact ⟨hr.symm, hlot2, by rw [hlot2]⟩

/-- Witness for C8 at `Lot(1, 1)` with a Car: park then remove restores the
fresh lot exactly. -/
theorem C8_witness :
    Inv (ParkingLot.mkNew 1 1) ∧
    (ParkingLot.mkNew 1 1).parkVehicle carA =
      some (ParkResult.parked 0 [0], lotAParked) ∧
    lotAParked.removeVehicle carA.licensePlate =
      some (RemoveResult.removed 0, ParkingLot.mkNew 1 1) ∧
    (RemoveResult.removed 0 = RemoveResult.removed 0 ∧
     ParkingLot.mkNew 1 1 = ParkingLot.mkNew 1 1 ∧
     ((ParkingLot.mkNew 1 1).getAvailableSpotsPerFloor).1 =
       ((ParkingLot.mkNew 1 1).getAvailableSpotsPerFloor).1) :=
  have hInv : Inv (ParkingLot.mkNew 1 1) :=
    Inv_mkNew 1 1 (by rw [sizeTCard_eq]; omega)
  ⟨hInv, by decide, by decide,
    C8_park_remove_roundtrip (ParkingLot.mkNew 1 1) carA 0 [0] lotAParked
      (ParkingLot.mkNew 1 1) (RemoveResult.removed 0) hInv (by decide) (by decide)⟩

end LLD
